import Mathlib

/-
Verification development for the gfx font subsystem
(src/components/gfx/font.rs): the data model, the Font operations
(shaping, measurement, drawing submission, construction) and the
FontGroup operations, embedded shallowly, with the collaborator
interfaces (platform font handle, shaper, glyph store, text run,
generic cache) modelled from the specification where their code is
outside the embedded module.

Mutable state (the two memoization caches, the lazily built shaper and
native drawing resource) is handled by explicit state passing: an
operation that mutates a Font returns the updated Font alongside its
result. A fatal assertion is modelled as an Option result, with none
standing for the abort. Fixed-point lengths (Au) are modelled as Int,
fractional pixels (f64 used only as an opaque cached quantity, never
computed with) as Rat.
-/

namespace Gfx

/-- Au is the fixed-point application-unit length type; only its signed
additive structure is used by this module. -/
abbrev Au := Int

/-- FractionalPixel abstracts the shaper's fixed-int representation; the
module stores and returns these values but performs no arithmetic on
them, so an exact numeric type is a faithful carrier. -/
abbrev FractionalPixel := Rat

/-- GlyphId as used by the glyph-advance cache (a 32-bit id in the
source, carried here as a natural number). -/
abbrev GlyphId := Nat

structure Point2D (α : Type) where
  x : α
  y : α
  deriving DecidableEq, Repr

structure Size2D (α : Type) where
  width : α
  height : α
  deriving DecidableEq, Repr

structure Rect (α : Type) where
  origin : Point2D α
  size : Size2D α
  deriving DecidableEq, Repr

/-- FontMetrics: the immutable numeric summary computed once from a
platform handle at construction time. -/
structure FontMetrics where
  underline_size : Au
  underline_offset : Au
  strikeout_size : Au
  strikeout_offset : Au
  leading : Au
  x_height : Au
  em_size : Au
  ascent : Au
  descent : Au
  max_advance : Au
  deriving DecidableEq, Repr

/-- Modelled from the spec: font_weight values from the style system
(outside this module); an opaque enumeration is enough here. -/
inductive FontWeight where
  | weight100 | weight200 | weight300 | weight400 | weight500
  | weight600 | weight700 | weight800 | weight900
  deriving DecidableEq, Repr

/-- Modelled from the spec: font_style values from the style system. -/
inductive FontStyleKind where
  | normal | italic | oblique
  deriving DecidableEq, Repr

/-- Modelled from the spec: the text_decoration computed value from the
style system; shaping and drawing carry it through opaquely. -/
structure TextDecoration where
  underline : Bool
  overline : Bool
  line_through : Bool
  deriving DecidableEq, Repr

/-- FontStyle: point size, weight, slant and the ordered family list;
structural equality. -/
structure FontStyle where
  pt_size : Rat
  weight : FontWeight
  style : FontStyleKind
  families : List String
  deriving DecidableEq, Repr

abbrev SpecifiedFontStyle := FontStyle
abbrev UsedFontStyle := FontStyle

/-- FontSelector: a platform-independent identification of a concrete
face (currently a single variant holding a platform identifier). -/
inductive FontSelector where
  | SelectorPlatformIdentifier (ident : String)
  deriving DecidableEq, Repr

/-- FontDescriptor: a (used style, selector) pair, safe to copy across
task boundaries. -/
structure FontDescriptor where
  style : UsedFontStyle
  selector : FontSelector
  deriving DecidableEq, Repr

def FontDescriptor.new (style : UsedFontStyle) (selector : FontSelector) :
    FontDescriptor :=
  { style := style, selector := selector }

/-- Modelled from the spec: one positioned glyph produced by shaping
(glyph id, advance to the next origin, optional intra-run offset); the
glyph store implementation lives outside this module. -/
structure GlyphEntry where
  id : GlyphId
  advance : Au
  offset : Option (Point2D Au)
  deriving DecidableEq, Repr

/-- Modelled from the spec: a glyph store is the immutable sequence of
positioned glyphs derived from shaping one text string, tagged at
construction with the whitespace flag; entry_buffer holds, per
character index, the glyphs shaped for that character. -/
structure GlyphStore where
  entry_buffer : List (List GlyphEntry)
  is_whitespace : Bool
  deriving DecidableEq, Repr

/-- Modelled from the spec: GlyphStore construction allocates a glyph
buffer sized to the character count and records the whitespace tag. -/
def GlyphStore.new (length : Nat) (is_whitespace : Bool) : GlyphStore :=
  { entry_buffer := List.replicate length [], is_whitespace := is_whitespace }

def GlyphStore.char_len (s : GlyphStore) : Nat :=
  s.entry_buffer.length

/-- Modelled from the spec: a character range with a begin index and a
length, as used by measurement and drawing. -/
structure Range where
  start : Nat
  length : Nat
  deriving DecidableEq, Repr

/-- Glyphs stored for one character index (empty when out of range). -/
def glyphsAt (buf : List (List GlyphEntry)) (i : Nat) : List GlyphEntry :=
  buf.getD i []

/-- Walk the glyph buffer from a start index for a given count,
concatenating each covered character's glyphs in order. -/
def iterFrom (buf : List (List GlyphEntry)) (start : Nat) :
    Nat → List GlyphEntry
  | 0 => []
  | n + 1 => glyphsAt buf start ++ iterFrom buf (start + 1) n

/-- Modelled from the spec: iteration over the glyphs of every
character covered by a range, in character order. -/
def GlyphStore.iter_glyphs_for_char_range (s : GlyphStore) (r : Range) :
    List GlyphEntry :=
  iterFrom s.entry_buffer r.start r.length

/-- Modelled from the spec: a text run holds the glyph stores of its
shaped slices, in text order, plus the decoration; its implementation
lives outside this module. -/
structure TextRun where
  glyphs : List GlyphStore
  decoration : TextDecoration
  deriving DecidableEq, Repr

/-- Clip a run-level range against the slice occupying local characters
[o, o + n) and convert it to slice-local coordinates. -/
def sliceRange (r : Range) (o n : Nat) : Range :=
  { start := max r.start o - o
    length := min (r.start + r.length) (o + n) - max r.start o }

/-- Walk the slices of a run, pairing each store with its character
offset and the clipped slice-local range. -/
def sliceList : List GlyphStore → Nat → Range →
    List (GlyphStore × Nat × Range)
  | [], _, _ => []
  | s :: rest, o, r =>
      (s, o, sliceRange r o s.char_len) :: sliceList rest (o + s.char_len) r

/-- Modelled from the spec: iteration over a run's glyph slices covering
a character range, yielding each store, its offset and the clipped
slice-local range. -/
def TextRun.iter_slices_for_range (run : TextRun) (r : Range) :
    List (GlyphStore × Nat × Range) :=
  sliceList run.glyphs 0 r

/-- Modelled from the spec: the generic memoizing cache from the
utility crate, as used here through find_or_create only; an association
list with insert-on-miss and no eviction. -/
structure HashCache (K V : Type) where
  entries : List (K × V)
  deriving DecidableEq, Repr

def HashCache.new {K V : Type} : HashCache K V :=
  { entries := [] }

def assocLookup {K V : Type} [DecidableEq K] :
    List (K × V) → K → Option V
  | [], _ => none
  | p :: rest, k => if k = p.1 then some p.2 else assocLookup rest k

/-- Look the key up; on a miss, run the block, insert the result and
return it; on a hit, return the cached value with the cache unchanged. -/
def HashCache.find_or_create {K V : Type} [DecidableEq K]
    (c : HashCache K V) (k : K) (blk : K → V) : V × HashCache K V :=
  match assocLookup c.entries k with
  | some v => (v, c)
  | none =>
      let v := blk k
      (v, { entries := (k, v) :: c.entries })

/-- Modelled from the spec: the drawing-backend selection supplied once
by the caller. -/
inductive BackendType where
  | cairo | skia | direct2d | coregraphics
  deriving DecidableEq, Repr

/-- Modelled from the spec: a solid color for the paint. -/
structure Color where
  r : Rat
  g : Rat
  b : Rat
  a : Rat
  deriving DecidableEq, Repr

/-- Modelled from the spec: the platform font handle capability; the
query functions stand for the native font API bound to one face, and
shape_fn stands for the platform shaper bound to this face (the shaper
populates per-character glyph data). -/
structure FontHandle where
  face_identifier : String
  family_name : String
  face_name : String
  is_italic : Bool
  boldness : FontWeight
  glyph_index_fn : Char → Option GlyphId
  glyph_h_advance_fn : GlyphId → Option FractionalPixel
  metrics : FontMetrics
  shape_fn : String → List (List GlyphEntry)

def FontHandle.get_metrics (h : FontHandle) : FontMetrics :=
  h.metrics

def FontHandle.glyph_index (h : FontHandle) (codepoint : Char) :
    Option GlyphId :=
  h.glyph_index_fn codepoint

def FontHandle.glyph_h_advance (h : FontHandle) (glyph : GlyphId) :
    Option FractionalPixel :=
  h.glyph_h_advance_fn glyph

/-- Modelled from the spec: the platform font-context handle, carrying
construct-from-buffer (construction either yields a fully usable handle
or an explicit failure). -/
structure FontContextHandle where
  create_handle : List Nat → SpecifiedFontStyle → Except Unit FontHandle

/-- Modelled from the spec: the font-context service consumed by Font
construction; only its platform handle is used here. -/
structure FontContext where
  handle : FontContextHandle

/-- Modelled from the spec: the shaper capability converts text into
per-character glyph data for the store. -/
structure Shaper where
  shape_impl : String → List (List GlyphEntry)

/-- Modelled from the spec: the shaper populates the store's glyph data
in place; the whitespace tag, set at store construction, is not
touched by shaping. -/
def Shaper.shape_text (sh : Shaper) (text : String) (glyphs : GlyphStore) :
    GlyphStore :=
  { glyphs with entry_buffer := sh.shape_impl text }

/-- Modelled from the spec: the native scaled-font drawing resource,
built from the handle, the resolved point size and the backend. -/
structure ScaledFont where
  backend : BackendType
  face : String
  size : Rat

/-- RunMetrics: advance width (signed), ascent, descent and the loose
bounding box anchored at vertical coordinate negative ascent. -/
structure RunMetrics where
  advance_width : Au
  ascent : Au
  descent : Au
  bounding_box : Rect Au
  deriving DecidableEq, Repr

def RunMetrics.new (advance : Au) (ascent : Au) (descent : Au) :
    RunMetrics :=
  { advance_width := advance
    ascent := ascent
    descent := descent
    bounding_box :=
      { origin := { x := 0, y := -ascent }
        size := { width := advance, height := ascent + descent } } }

/-- A font instance: one platform handle, the lazily built drawing
resource and shaper, the used style, the metrics computed once, the
backend selection, and the two memoization caches. -/
structure Font where
  handle : FontHandle
  azure_font : Option ScaledFont
  shaper : Option Shaper
  style : UsedFontStyle
  metrics : FontMetrics
  backend : BackendType
  shape_cache : HashCache String GlyphStore
  glyph_advance_cache : HashCache GlyphId FractionalPixel

/-- Shaper construction is bound to the Font (through its handle). -/
def Shaper.new (font : Font) : Shaper :=
  { shape_impl := font.handle.shape_fn }

def Font.new_from_buffer (ctx : FontContext) (buffer : List Nat)
    (style : SpecifiedFontStyle) (backend : BackendType) :
    Except Unit Font :=
  match ctx.handle.create_handle buffer style with
  | Except.error () => Except.error ()
  | Except.ok handle =>
      let metrics := handle.get_metrics
      Except.ok
        { handle := handle
          azure_font := none
          shaper := none
          style := style
          metrics := metrics
          backend := backend
          shape_cache := HashCache.new
          glyph_advance_cache := HashCache.new }

def Font.new_from_adopted_handle (handle : FontHandle)
    (style : SpecifiedFontStyle) (backend : BackendType) : Font :=
  { handle := handle
    azure_font := none
    shaper := none
    style := style
    metrics := handle.get_metrics
    backend := backend
    shape_cache := HashCache.new
    glyph_advance_cache := HashCache.new }

/-- Return the existing shaper when present; otherwise construct one,
store it and return it. -/
def Font.make_shaper (f : Font) : Shaper × Font :=
  match f.shaper with
  | some sh => (sh, f)
  | none =>
      let sh := Shaper.new f
      (sh, { f with shaper := some sh })

def Font.get_descriptor (f : Font) : FontDescriptor :=
  FontDescriptor.new f.style
    (FontSelector.SelectorPlatformIdentifier f.handle.face_identifier)

def Font.glyph_index (f : Font) (codepoint : Char) : Option GlyphId :=
  f.handle.glyph_index codepoint

/-- Look the glyph up in the advance cache; on a miss query the handle,
substituting the fixed fallback advance 10 when the platform cannot
answer. -/
def Font.glyph_h_advance (f : Font) (glyph : GlyphId) :
    FractionalPixel × Font :=
  let handle := f.handle
  let (v, cache) := f.glyph_advance_cache.find_or_create glyph
    (fun glyph =>
      match handle.glyph_h_advance glyph with
      | some adv => adv
      | none => 10)
  (v, { f with glyph_advance_cache := cache })

/-- Ensure a shaper exists, then look the text up in the shape cache;
on a miss allocate a store sized to the character count and tagged with
the whitespace flag, shape into it, insert and return it. -/
def Font.shape_text (f : Font) (text : String) (is_whitespace : Bool) :
    GlyphStore × Font :=
  let (shaper, f1) := f.make_shaper
  let (glyphs, cache) := f1.shape_cache.find_or_create text
    (fun txt =>
      let glyphs := GlyphStore.new text.length is_whitespace
      shaper.shape_text txt glyphs)
  (glyphs, { f1 with shape_cache := cache })

/-- Fold the advances of a glyph list onto an accumulator, as the
measurement loops do. -/
def advanceFold (gs : List GlyphEntry) (acc : Au) : Au :=
  gs.foldl (fun a g => a + g.advance) acc

def Font.measure_text (f : Font) (run : TextRun) (range : Range) :
    RunMetrics :=
  let advance := (run.iter_slices_for_range range).foldl
    (fun acc sl => advanceFold (sl.1.iter_glyphs_for_char_range sl.2.2) acc)
    0
  RunMetrics.new advance f.metrics.ascent f.metrics.descent

def Font.measure_text_for_slice (f : Font) (glyphs : GlyphStore)
    (slice_range : Range) : RunMetrics :=
  let advance := advanceFold (glyphs.iter_glyphs_for_char_range slice_range) 0
  RunMetrics.new advance f.metrics.ascent f.metrics.descent

/-- Modelled from the spec: TextRun construction (outside this module)
shapes the given text with the given font and records the decoration. -/
def TextRun.new (font : Font) (text : String)
    (decoration : TextDecoration) : TextRun :=
  { glyphs := [(font.shape_text text false).1], decoration := decoration }

/-- FontGroup: the ordered fallback list of fonts for one style. -/
structure FontGroup where
  families : List String
  style : UsedFontStyle
  fonts : List Font

def FontGroup.new (families : List String) (style : UsedFontStyle)
    (fonts : List Font) : FontGroup :=
  { families := families, style := style, fonts := fonts }

/-- Shape via the first font of the group; the emptiness assertion is
modelled as an Option, none standing for the fatal abort. -/
def FontGroup.create_textrun (g : FontGroup) (text : String)
    (decoration : TextDecoration) : Option TextRun :=
  match g.fonts with
  | [] => none
  | f :: _ => some (TextRun.new f text decoration)

/-! Quantities over glyphs and character intervals, used to state and
prove the measurement properties. -/

/-- Signed advance sum of a glyph list. -/
def advSum (gs : List GlyphEntry) : Au :=
  (gs.map (fun g => g.advance)).sum

/-- Sum of a per-character quantity over the interval of length n
starting at b. -/
def ivalSum (g : Nat → Au) (b : Nat) : Nat → Au
  | 0 => 0
  | n + 1 => g b + ivalSum g (b + 1) n

/-- Advance sum of the glyphs stored for one character index. -/
def entryAdvAt (s : GlyphStore) (j : Nat) : Au :=
  advSum (glyphsAt s.entry_buffer j)

/-- Per-character advance across a run's slice list, in run-global
coordinates. -/
def runEntryAdv : List GlyphStore → Nat → Au
  | [], _ => 0
  | s :: rest, i =>
      if i < s.char_len then entryAdvAt s i
      else runEntryAdv rest (i - s.char_len)

/-- The contiguous sub-ranges of lengths ls starting at b. -/
def partitionRanges (b : Nat) : List Nat → List Range
  | [] => []
  | l :: ls => { start := b, length := l } :: partitionRanges (b + l) ls

/-! The drawing submission path. The drawing context is modelled by the
list of backend fill-glyphs calls an operation issues: an unchanged
context is an empty call list. -/

/-- Modelled from the spec: device rounding of a fixed-point length (60
application units per device pixel, rounded to the nearest pixel). -/
def toNearestPx (a : Au) : Int :=
  (a + 30) / 60

/-- One glyph of the backend batch: glyph id and device-rounded
position. -/
structure AzGlyph where
  mIndex : GlyphId
  mPosition : Point2D Int
  deriving DecidableEq, Repr

structure AzGlyphBuffer where
  mGlyphs : List AzGlyph
  deriving DecidableEq, Repr

structure AzDrawOptions where
  mAlpha : Rat
  fields : Nat
  deriving DecidableEq, Repr

/-- One batched fill-glyphs backend call: the glyph buffer, the solid
color paint and the draw options. -/
structure FillGlyphsCall where
  glyphbuf : AzGlyphBuffer
  color : Color
  options : AzDrawOptions
  deriving DecidableEq, Repr

/-- One step of the glyph walk: append the positioned glyph (pen
position plus intra-run offset, device rounded) and advance the running
origin by the glyph's advance. -/
def drawStep (acc : Point2D Au × List AzGlyph) (g : GlyphEntry) :
    Point2D Au × List AzGlyph :=
  let origin := acc.1
  let goff := g.offset.getD { x := 0, y := 0 }
  let azglyph : AzGlyph :=
    { mIndex := g.id
      mPosition :=
        { x := toNearestPx (origin.x + goff.x)
          y := toNearestPx (origin.y + goff.y) } }
  ({ x := origin.x + g.advance, y := origin.y }, acc.2 ++ [azglyph])

/-- Walk the run's glyph slices covering the range, accumulating the
backend glyph batch from the baseline origin. -/
def azGlyphsForRange (run : TextRun) (range : Range)
    (baseline_origin : Point2D Au) : List AzGlyph :=
  ((run.iter_slices_for_range range).foldl
    (fun acc sl => (sl.1.iter_glyphs_for_char_range sl.2.2).foldl drawStep acc)
    (baseline_origin, [])).2

/-- Modelled from the spec: the native scaled font is built from the
handle's face, the resolved point size and the backend selection. -/
def Font.create_azure_font (f : Font) : ScaledFont :=
  { backend := f.backend
    face := f.handle.face_identifier
    size := f.style.pt_size }

/-- Return the existing native drawing resource when present; otherwise
build it once, store it and return it. -/
def Font.get_azure_font (f : Font) : ScaledFont × Font :=
  match f.azure_font with
  | some azfont => (azfont, f)
  | none =>
      let azfont := f.create_azure_font
      (azfont, { f with azure_font := some azfont })

/-- Walk the covered glyphs into a batch; if the batch is empty return
without issuing any backend call, otherwise issue exactly one batched
fill-glyphs call carrying the full buffer. The issued calls are
returned alongside the updated Font. -/
def Font.draw_text_into_context (f : Font) (run : TextRun)
    (range : Range) (baseline_origin : Point2D Au) (color : Color) :
    List FillGlyphsCall × Font :=
  let (_azfont, f1) := f.get_azure_font
  let options : AzDrawOptions := { mAlpha := 1, fields := 0x0200 }
  let azglyphs := azGlyphsForRange run range baseline_origin
  if azglyphs.length = 0 then ([], f1)
  else
    ([{ glyphbuf := { mGlyphs := azglyphs }, color := color
        options := options }], f1)

/-! Concrete fixtures used by scenario theorems and witnesses. -/

def scenarioMetrics : FontMetrics :=
  { underline_size := 1, underline_offset := -2, strikeout_size := 1
    strikeout_offset := 4, leading := 2, x_height := 6, em_size := 12
    ascent := 11, descent := 3, max_advance := 13 }

def scenarioHandle : FontHandle :=
  { face_identifier := "face-0"
    family_name := "Fam"
    face_name := "Fam Regular"
    is_italic := false
    boldness := FontWeight.weight400
    glyph_index_fn := fun _ => none
    glyph_h_advance_fn := fun _ => none
    metrics := scenarioMetrics
    shape_fn := fun _ => [] }

def scenarioStyle : FontStyle :=
  { pt_size := 12, weight := FontWeight.weight400
    style := FontStyleKind.normal, families := ["Fam"] }

def scenarioFont : Font :=
  Font.new_from_adopted_handle scenarioHandle scenarioStyle BackendType.skia

def scenarioStore : GlyphStore :=
  { entry_buffer :=
      [[{ id := 1, advance := 5, offset := none }],
       [{ id := 2, advance := -1, offset := none }],
       [{ id := 3, advance := 6, offset := none }]]
    is_whitespace := false }

def errHandleCtx : FontContext :=
  { handle := { create_handle := fun _ _ => Except.error () } }

def okHandleCtx : FontContext :=
  { handle := { create_handle := fun _ _ => Except.ok scenarioHandle } }

/-! Theorems settling the claims. -/

/-- Claim C9: make_shaper is idempotent: the first call stores a shaper
bound to the Font, and a repeated call returns the already-stored
shaper with the Font unchanged, so the Font holds exactly one shaper
after any sequence of calls. -/
theorem make_shaper_idempotent (f : Font) :
    (f.make_shaper.2).shaper = some f.make_shaper.1 ∧
    (f.make_shaper.2).make_shaper = (f.make_shaper.1, f.make_shaper.2) := by
  cases h : f.shaper <;> simp [Font.make_shaper, h]

/-- Claim C8: calling create_textrun on a FontGroup with an empty font
list is a fatal precondition violation; the abort is modelled as the
none result, so no TextRun value is ever produced for an empty group. -/
theorem create_textrun_empty_group_fatal (families : List String)
    (style : UsedFontStyle) (text : String) (decoration : TextDecoration) :
    FontGroup.create_textrun (FontGroup.new families style []) text decoration
      = none :=
  rfl

/-- Claim C3: create_textrun on a nonempty group always delegates
shaping to the first Font: the result is built from that Font alone and
is unchanged under any replacement of the subsequent fonts, so no
per-character fallback through later fonts occurs. -/
theorem create_textrun_uses_first_font (families : List String)
    (style : UsedFontStyle) (f0 : Font) (rest rest2 : List Font)
    (text : String) (decoration : TextDecoration) :
    FontGroup.create_textrun (FontGroup.new families style (f0 :: rest))
        text decoration = some (TextRun.new f0 text decoration) ∧
    FontGroup.create_textrun (FontGroup.new families style (f0 :: rest))
        text decoration
      = FontGroup.create_textrun (FontGroup.new families style (f0 :: rest2))
        text decoration :=
  ⟨rfl, rfl⟩

/-- Claim C7: new_from_buffer fails exactly when platform handle
construction fails, producing no Font in that case; on success the
Font holds the constructed handle, metrics computed once from it, no
shaper, no native drawing resource, and empty shape and glyph-advance
caches. -/
theorem new_from_buffer_result (ctx : FontContext) (buffer : List Nat)
    (style : SpecifiedFontStyle) (backend : BackendType) :
    (ctx.handle.create_handle buffer style = Except.error () →
      Font.new_from_buffer ctx buffer style backend = Except.error ()) ∧
    (∀ h : FontHandle, ctx.handle.create_handle buffer style = Except.ok h →
      Font.new_from_buffer ctx buffer style backend = Except.ok
        { handle := h, azure_font := none, shaper := none, style := style
          metrics := h.get_metrics, backend := backend
          shape_cache := HashCache.new
          glyph_advance_cache := HashCache.new }) := by
  constructor
  · intro he
    simp [Font.new_from_buffer, he]
  · intro h hok
    simp [Font.new_from_buffer, hok]

/-- Witness for claim C7 at concrete contexts: a failing platform
constructor yields the error result, a succeeding one yields the fully
initialized Font. -/
theorem new_from_buffer_result_witness :
    Font.new_from_buffer errHandleCtx [] scenarioStyle BackendType.skia
      = Except.error () ∧
    Font.new_from_buffer okHandleCtx [] scenarioStyle BackendType.skia
      = Except.ok
        { handle := scenarioHandle, azure_font := none, shaper := none
          style := scenarioStyle, metrics := scenarioHandle.get_metrics
          backend := BackendType.skia, shape_cache := HashCache.new
          glyph_advance_cache := HashCache.new } :=
  ⟨(new_from_buffer_result errHandleCtx [] scenarioStyle BackendType.skia).1
      rfl,
   (new_from_buffer_result okHandleCtx [] scenarioStyle BackendType.skia).2
      scenarioHandle rfl⟩

/-- Claim C2: glyph_h_advance is total; on a first (uncached) query it
returns the platform-reported advance when the handle answers and the
fixed fallback 10 otherwise, and a repeated call with the same glyph id
returns the same value with the Font unchanged. -/
theorem glyph_h_advance_total_stable (f : Font) (glyph : GlyphId) :
    (assocLookup f.glyph_advance_cache.entries glyph = none →
      (f.glyph_h_advance glyph).1 = (f.handle.glyph_h_advance glyph).getD 10) ∧
    (f.glyph_h_advance glyph).2.glyph_h_advance glyph
      = f.glyph_h_advance glyph := by
  cases hc : assocLookup f.glyph_advance_cache.entries glyph with
  | some v =>
      refine ⟨fun hnone => by simp [hc] at hnone, ?_⟩
      simp [Font.glyph_h_advance, HashCache.find_or_create, hc]
  | none =>
      constructor
      · intro _
        cases ha : f.handle.glyph_h_advance glyph <;>
          simp [Font.glyph_h_advance, HashCache.find_or_create, hc, ha]
      · simp [Font.glyph_h_advance, HashCache.find_or_create, hc, assocLookup]

/-- Witness for claim C2 at a concrete Font with an empty advance
cache: the first query returns the fallback-or-reported value and the
repeated query is stable. -/
theorem glyph_h_advance_total_stable_witness :
    ((scenarioFont.glyph_h_advance 7).1
        = (scenarioFont.handle.glyph_h_advance 7).getD 10) ∧
    (scenarioFont.glyph_h_advance 7).2.glyph_h_advance 7
      = scenarioFont.glyph_h_advance 7 :=
  ⟨(glyph_h_advance_total_stable scenarioFont 7).1 rfl,
   (glyph_h_advance_total_stable scenarioFont 7).2⟩

/-- Claim C1: shaping the same text twice on the same Font makes the
second call a pure cache hit: it returns the very glyph store produced
by the first call (hence the two stores are structurally equal) and
leaves the Font, shaper and caches included, unchanged, so the shaper
runs at most once per distinct text; the store is moreover found in the
shape cache under the text. -/
theorem shape_text_cache_hit (f : Font) (text : String)
    (is_whitespace : Bool) :
    (f.shape_text text is_whitespace).2.shape_text text is_whitespace
        = f.shape_text text is_whitespace ∧
    assocLookup (f.shape_text text is_whitespace).2.shape_cache.entries text
        = some (f.shape_text text is_whitespace).1 := by
  cases hs : f.shaper <;>
    cases hc : assocLookup f.shape_cache.entries text <;>
      simp [Font.shape_text, Font.make_shaper, HashCache.find_or_create,
        hs, hc, assocLookup]

/-- Claim C10: the is_whitespace argument is consulted only on a shape
cache miss: shaping uncached text with flag w1 produces a store tagged
w1, and a later call for the same text with any flag w2 returns that
cached store, still tagged w1, with the Font unchanged. -/
theorem shape_text_hit_keeps_first_whitespace_flag (f : Font)
    (text : String) (w1 w2 : Bool)
    (hmiss : assocLookup f.shape_cache.entries text = none) :
    (f.shape_text text w1).1.is_whitespace = w1 ∧
    (f.shape_text text w1).2.shape_text text w2 = f.shape_text text w1 := by
  cases hs : f.shaper <;>
    simp [Font.shape_text, Font.make_shaper, HashCache.find_or_create,
      hmiss, hs, Shaper.shape_text, GlyphStore.new, assocLookup]

/-- Witness for claim C10 at a concrete Font with an empty shape cache:
the first shape of "ab" with flag true is tagged true, and reshaping
"ab" with flag false returns the same store and Font. -/
theorem shape_text_hit_keeps_first_whitespace_flag_witness :
    (scenarioFont.shape_text "ab" true).1.is_whitespace = true ∧
    (scenarioFont.shape_text "ab" true).2.shape_text "ab" false
      = scenarioFont.shape_text "ab" true :=
  shape_text_hit_keeps_first_whitespace_flag scenarioFont "ab" true false rfl

/-- Claim C5: measuring a slice yields RunMetrics made of the signed
advance sum A, the Font's ascent a and descent d, with bounding box
origin (0, -a) and size (A, a + d); in particular for ascent 11,
descent 3 and advances [5, -1, 6] the result is advance_width 10,
ascent 11, descent 3, box origin (0, -11), box size (10, 14). -/
theorem measure_text_for_slice_metrics_scenario :
    (∀ (f : Font) (glyphs : GlyphStore) (r : Range),
      f.measure_text_for_slice glyphs r =
        { advance_width := advanceFold (glyphs.iter_glyphs_for_char_range r) 0
          ascent := f.metrics.ascent
          descent := f.metrics.descent
          bounding_box :=
            { origin := { x := 0, y := -f.metrics.ascent }
              size :=
                { width := advanceFold (glyphs.iter_glyphs_for_char_range r) 0
                  height := f.metrics.ascent + f.metrics.descent } } }) ∧
    scenarioFont.measure_text_for_slice scenarioStore
        { start := 0, length := 3 } =
      { advance_width := 10, ascent := 11, descent := 3
        bounding_box :=
          { origin := { x := 0, y := -11 }, size := { width := 10, height := 14 } } } := by
  constructor
  · intro f glyphs r
    rfl
  · decide

/-! Measurement additivity infrastructure: the bridge from the nested
measurement folds to interval sums of per-character advances. -/

theorem advanceFold_eq (gs : List GlyphEntry) (acc : Au) :
    advanceFold gs acc = acc + advSum gs := by
  induction gs generalizing acc with
  | nil => simp [advanceFold, advSum]
  | cons g gs ih =>
      simp only [advanceFold, List.foldl_cons] at *
      rw [ih (acc + g.advance)]
      simp [advSum, add_assoc]

theorem advSum_append (xs ys : List GlyphEntry) :
    advSum (xs ++ ys) = advSum xs + advSum ys := by
  simp [advSum]

theorem advSum_iterFrom (buf : List (List GlyphEntry)) (b n : Nat) :
    advSum (iterFrom buf b n)
      = ivalSum (fun i => advSum (glyphsAt buf i)) b n := by
  induction n generalizing b with
  | zero => simp [iterFrom, ivalSum, advSum]
  | succ n ih => rw [iterFrom, advSum_append, ivalSum, ih]

theorem ivalSum_split (g : Nat → Au) (b m n : Nat) :
    ivalSum g b (m + n) = ivalSum g b m + ivalSum g (b + m) n := by
  induction m generalizing b with
  | zero => simp [ivalSum]
  | succ m ih =>
      have hrw : m + 1 + n = (m + n) + 1 := by omega
      rw [hrw, ivalSum, ivalSum, ih (b + 1)]
      have hb : b + 1 + m = b + (m + 1) := by omega
      rw [hb, add_assoc]

theorem ivalSum_congr (g h : Nat → Au) (b n : Nat)
    (H : ∀ i, b ≤ i → i < b + n → g i = h i) :
    ivalSum g b n = ivalSum h b n := by
  induction n generalizing b with
  | zero => rfl
  | succ n ih =>
      rw [ivalSum, ivalSum, H b (Nat.le_refl b) (by omega),
        ih (b + 1) (fun i h1 h2 => H i (by omega) (by omega))]

theorem ivalSum_zero_fun (b n : Nat) :
    ivalSum (fun _ => (0 : Au)) b n = 0 := by
  induction n generalizing b with
  | zero => rfl
  | succ n ih => rw [ivalSum, ih, add_zero]

theorem ivalSum_add (g h : Nat → Au) (b n : Nat) :
    ivalSum (fun i => g i + h i) b n = ivalSum g b n + ivalSum h b n := by
  induction n generalizing b with
  | zero => simp [ivalSum]
  | succ n ih =>
      rw [ivalSum, ivalSum, ivalSum, ih (b + 1)]
      ring

theorem ivalSum_shift (g : Nat → Au) (o b n : Nat) (hob : o ≤ b) :
    ivalSum g (b - o) n = ivalSum (fun i => g (i - o)) b n := by
  induction n generalizing b with
  | zero => rfl
  | succ n ih =>
      rw [ivalSum, ivalSum]
      have h1 : b - o + 1 = (b + 1) - o := by omega
      rw [h1, ih (b + 1) (by omega)]

/-- Clipping a run-level interval against the window [o, o + n) and
shifting to local coordinates sums the same per-character quantities as
summing the windowed quantity over the whole interval. -/
theorem ivalSum_clip (g : Nat → Au) (o n b l : Nat) :
    ivalSum g (max b o - o) (min (b + l) (o + n) - max b o)
      = ivalSum (fun i => if o ≤ i ∧ i < o + n then g (i - o) else 0) b l := by
  by_cases hempty : min (b + l) (o + n) ≤ max b o
  · have hlen : min (b + l) (o + n) - max b o = 0 := by omega
    rw [hlen]
    have hz : ivalSum (fun i => if o ≤ i ∧ i < o + n then g (i - o) else 0) b l
        = ivalSum (fun _ => (0 : Au)) b l := by
      refine ivalSum_congr _ _ b l (fun i h1 h2 => ?_)
      have hno : ¬ (o ≤ i ∧ i < o + n) := by omega
      simp [hno]
    rw [hz, ivalSum_zero_fun]
    rfl
  · have h1 : b ≤ max b o := by omega
    have h2 : max b o ≤ min (b + l) (o + n) := by omega
    have h3 : min (b + l) (o + n) ≤ b + l := by omega
    have hl : l = (max b o - b)
        + ((min (b + l) (o + n) - max b o) + (b + l - min (b + l) (o + n))) := by
      omega
    conv_rhs => rw [hl]
    rw [ivalSum_split, ivalSum_split]
    have e1 : b + (max b o - b) = max b o := by omega
    have e2 : max b o + (min (b + l) (o + n) - max b o)
        = min (b + l) (o + n) := by omega
    rw [e1, e2]
    have hfirst : ivalSum (fun i => if o ≤ i ∧ i < o + n then g (i - o) else 0)
        b (max b o - b) = 0 := by
      rw [ivalSum_congr _ (fun _ => (0 : Au)) b (max b o - b)
        (fun i hi1 hi2 => by
          have hno : ¬ (o ≤ i ∧ i < o + n) := by omega
          simp [hno])]
      exact ivalSum_zero_fun _ _
    have hlast : ivalSum (fun i => if o ≤ i ∧ i < o + n then g (i - o) else 0)
        (min (b + l) (o + n)) (b + l - min (b + l) (o + n)) = 0 := by
      rw [ivalSum_congr _ (fun _ => (0 : Au)) _ _
        (fun i hi1 hi2 => by
          have hno : ¬ (o ≤ i ∧ i < o + n) := by omega
          simp [hno])]
      exact ivalSum_zero_fun _ _
    have hmid : ivalSum (fun i => if o ≤ i ∧ i < o + n then g (i - o) else 0)
        (max b o) (min (b + l) (o + n) - max b o)
        = ivalSum (fun i => g (i - o)) (max b o)
            (min (b + l) (o + n) - max b o) := by
      refine ivalSum_congr _ _ _ _ (fun i hi1 hi2 => ?_)
      have hyes : o ≤ i ∧ i < o + n := by omega
      simp [hyes]
    rw [hfirst, hlast, hmid, zero_add, add_zero]
    exact ivalSum_shift g o (max b o) _ (by omega)

/-- The nested measurement fold over a slice list equals the starting
accumulator plus the mapped advance sums. -/
theorem foldl_advanceFold (slices : List (GlyphStore × Nat × Range))
    (acc : Au) :
    slices.foldl
        (fun acc sl => advanceFold (sl.1.iter_glyphs_for_char_range sl.2.2) acc)
        acc
      = acc
        + ((slices.map
            (fun sl => advSum (sl.1.iter_glyphs_for_char_range sl.2.2))).sum) := by
  induction slices generalizing acc with
  | nil => simp
  | cons sl rest ih =>
      rw [List.foldl_cons, ih, advanceFold_eq]
      simp [add_assoc]

/-- Summed advances over the clipped slices of a slice list equal the
interval sum of the run-global per-character advances. -/
theorem sliceList_adv (L : List GlyphStore) (o : Nat) (r : Range) :
    ((sliceList L o r).map
        (fun sl => advSum (sl.1.iter_glyphs_for_char_range sl.2.2))).sum
      = ivalSum (fun i => if o ≤ i then runEntryAdv L (i - o) else 0)
          r.start r.length := by
  induction L generalizing o with
  | nil =>
      rw [show ivalSum (fun i => if o ≤ i then runEntryAdv [] (i - o) else 0)
            r.start r.length = ivalSum (fun _ => (0 : Au)) r.start r.length
        from ivalSum_congr _ _ _ _ (fun i _ _ => by simp [runEntryAdv])]
      simp [sliceList, ivalSum_zero_fun]
  | cons s rest ih =>
      have hpt : ∀ i,
          (if o ≤ i ∧ i < o + s.char_len then entryAdvAt s (i - o) else 0)
            + (if o + s.char_len ≤ i
                then runEntryAdv rest (i - (o + s.char_len)) else 0)
          = (if o ≤ i then runEntryAdv (s :: rest) (i - o) else 0) := by
        intro i
        by_cases hi1 : o ≤ i
        · by_cases hi2 : i < o + s.char_len
          · have hi3 : ¬ (o + s.char_len ≤ i) := by omega
            have hi4 : i - o < s.char_len := by omega
            simp [hi1, hi2, hi3, runEntryAdv, hi4]
          · have hi3 : o + s.char_len ≤ i := by omega
            have hi4 : ¬ (i - o < s.char_len) := by omega
            have hi5 : i - (o + s.char_len) = i - o - s.char_len := by omega
            simp [hi1, hi2, hi3, runEntryAdv, hi4, hi5]
        · have hi2 : ¬ (o + s.char_len ≤ i) := by omega
          have hi3 : ¬ (o ≤ i ∧ i < o + s.char_len) := by omega
          simp [hi1, hi2, hi3]
      rw [sliceList, List.map_cons, List.sum_cons, ih (o + s.char_len)]
      rw [show advSum ((s).iter_glyphs_for_char_range (sliceRange r o s.char_len))
            = ivalSum (fun i => advSum (glyphsAt s.entry_buffer i))
                (max r.start o - o)
                (min (r.start + r.length) (o + s.char_len) - max r.start o)
        from advSum_iterFrom s.entry_buffer _ _]
      rw [show (fun i => advSum (glyphsAt s.entry_buffer i)) = entryAdvAt s
        from rfl]
      rw [ivalSum_clip (entryAdvAt s) o s.char_len r.start r.length]
      rw [← ivalSum_add]
      exact ivalSum_congr _ _ _ _ (fun i _ _ => hpt i)

/-- The advance width measured over a range of a run is the interval
sum of the run's per-character advances. -/
theorem measure_text_advance (f : Font) (run : TextRun) (r : Range) :
    (f.measure_text run r).advance_width
      = ivalSum (runEntryAdv run.glyphs) r.start r.length := by
  show (run.iter_slices_for_range r).foldl
      (fun acc sl => advanceFold (sl.1.iter_glyphs_for_char_range sl.2.2) acc) 0
    = ivalSum (runEntryAdv run.glyphs) r.start r.length
  rw [foldl_advanceFold, zero_add, TextRun.iter_slices_for_range,
    sliceList_adv run.glyphs 0 r]
  exact ivalSum_congr _ _ _ _ (fun i _ _ => by simp)

/-- The advance width measured over a slice range of a glyph store is
the interval sum of that store's per-character advances. -/
theorem measure_slice_advance (f : Font) (glyphs : GlyphStore) (r : Range) :
    (f.measure_text_for_slice glyphs r).advance_width
      = ivalSum (entryAdvAt glyphs) r.start r.length := by
  show advanceFold (glyphs.iter_glyphs_for_char_range r) 0
    = ivalSum (entryAdvAt glyphs) r.start r.length
  rw [advanceFold_eq, zero_add, GlyphStore.iter_glyphs_for_char_range,
    advSum_iterFrom]
  rfl

/-- Interval sums are additive over a partition into contiguous
sub-intervals. -/
theorem ivalSum_partition (g : Nat → Au) (b : Nat) (ls : List Nat) :
    ivalSum g b ls.sum
      = ((partitionRanges b ls).map
          (fun r => ivalSum g r.start r.length)).sum := by
  induction ls generalizing b with
  | nil => rfl
  | cons l ls ih =>
      rw [List.sum_cons, ivalSum_split, partitionRanges, List.map_cons,
        List.sum_cons, ih (b + l)]

/-- Claim C4: the advance width of a full range equals the signed sum
of the advance widths of any partition of that range into contiguous
sub-ranges, both for measure_text on a run and for
measure_text_for_slice on a glyph store. -/
theorem measure_text_partition_additive (f : Font) (run : TextRun)
    (glyphs : GlyphStore) (b : Nat) (ls : List Nat) :
    (f.measure_text run { start := b, length := ls.sum }).advance_width
      = ((partitionRanges b ls).map
          (fun r => (f.measure_text run r).advance_width)).sum ∧
    (f.measure_text_for_slice glyphs
        { start := b, length := ls.sum }).advance_width
      = ((partitionRanges b ls).map
          (fun r => (f.measure_text_for_slice glyphs r).advance_width)).sum := by
  constructor
  · rw [measure_text_advance]
    rw [show ((partitionRanges b ls).map
          (fun r => (f.measure_text run r).advance_width)).sum
        = ((partitionRanges b ls).map
          (fun r => ivalSum (runEntryAdv run.glyphs) r.start r.length)).sum
      from by
        apply congrArg
        exact List.map_congr_left (fun r _ => measure_text_advance f run r)]
    exact ivalSum_partition _ b ls
  · rw [measure_slice_advance]
    rw [show ((partitionRanges b ls).map
          (fun r => (f.measure_text_for_slice glyphs r).advance_width)).sum
        = ((partitionRanges b ls).map
          (fun r => ivalSum (entryAdvAt glyphs) r.start r.length)).sum
      from by
        apply congrArg
        exact List.map_congr_left (fun r _ => measure_slice_advance f glyphs r)]
    exact ivalSum_partition _ b ls

/-! Drawing submission: the empty-batch guard. -/

/-- Walking any slice list with a zero-length range collects no glyphs
and leaves the accumulator unchanged. -/
theorem drawFold_zero_length (L : List GlyphStore) (o b : Nat)
    (acc : Point2D Au × List AzGlyph) :
    (sliceList L o { start := b, length := 0 }).foldl
        (fun acc sl =>
          (sl.1.iter_glyphs_for_char_range sl.2.2).foldl drawStep acc)
        acc
      = acc := by
  induction L generalizing o acc with
  | nil => rfl
  | cons s rest ih =>
      rw [sliceList, List.foldl_cons]
      have hlen :
          (sliceRange { start := b, length := 0 } o s.char_len).length = 0 := by
        simp only [sliceRange]
        omega
      have hiter : s.iter_glyphs_for_char_range
          (sliceRange { start := b, length := 0 } o s.char_len) = [] := by
        rw [GlyphStore.iter_glyphs_for_char_range, hlen]
        rfl
      rw [hiter, List.foldl_nil]
      exact ih (o + s.char_len) acc

/-- A zero-length character range walks into an empty glyph batch. -/
theorem azGlyphs_zero_length (run : TextRun) (b : Nat)
    (origin : Point2D Au) :
    azGlyphsForRange run { start := b, length := 0 } origin = [] := by
  rw [azGlyphsForRange, TextRun.iter_slices_for_range, drawFold_zero_length]

/-- Claim C6: when the walked glyph buffer is empty — in particular for
any zero-length character range — draw_text_into_context issues no
backend fill-glyphs call (so the drawing context, modelled by its call
list, is unchanged); otherwise it issues exactly one batched call
carrying the full buffer. -/
theorem draw_text_empty_batch_guard (f : Font) (run : TextRun)
    (range : Range) (origin : Point2D Au) (color : Color) (b : Nat) :
    (f.draw_text_into_context run range origin color).1
      = (if (azGlyphsForRange run range origin).length = 0 then []
         else
          [{ glyphbuf := { mGlyphs := azGlyphsForRange run range origin }
             color := color
             options := { mAlpha := 1, fields := 0x0200 } }]) ∧
    (f.draw_text_into_context run { start := b, length := 0 } origin
        color).1 = [] := by
  constructor
  · cases h : f.azure_font <;>
      · simp [Font.draw_text_into_context, Font.get_azure_font, h]
        split <;> rfl
  · cases h : f.azure_font <;>
      simp [Font.draw_text_into_context, Font.get_azure_font, h,
        azGlyphs_zero_length]

end Gfx
